import Mathlib

/-!
# Verification of the jira-sprint-analysis discipline reconciliation engine

Shallow embedding of `src/jira_analysis/analyzer.py` (the per-discipline
classifier/aggregator `process_discipline_data` and the two calculators
`calculate_percentage_diff`, `calculate_improvement`) and of the script-level
aggregation in `src/jira_analysis/analyze_estimates.py` (its own
`process_discipline_data` variant and `overall_completion_rate`).

Modelling conventions:
* Python floats are idealized as exact rationals (`ℚ`).  A pandas cell is a
  `Cell`: a finite numeric value (`num`), a string that does not parse as a
  Python float literal (`text`), or a missing value (`na`, i.e. NaN/None —
  the values on which `pd.notna` is false).
* `float(x)` on a `text` cell raises Python's
  `ValueError("could not convert string to float: ...")`; the exception
  object carries only the offending string, which we model as
  `Err.valueError s`.  `float` applied to NaN returns the non-finite float
  NaN, which has no exact-rational counterpart; the embedding reports that
  path as `Err.nanValue`.  That path is reachable only for a table whose
  `Key` column contains duplicates, which the spec's input contract rules
  out ("mandatory unique, non-blank Key column").
* `row[col]` on a column absent from the frame's schema raises a pandas
  `KeyError(col)`, modelled as `Err.keyError col`.
* The mandatory `Key` column is modelled as the structural field
  `Row.key`; the optional `Assignee` column as `Row.assignee`
  (`none` = column absent, matching `row.get("Assignee", "Unassigned")`).
* Exceptions abort `process_discipline_data` wholesale, so intermediate
  mutations of its local sets on an error path are unobservable; each loop
  iteration is therefore modelled as a fallible state transformer.
-/

/-- A pandas cell as seen by the analyzer: a finite numeric value, a
non-float-parsable string, or a missing value (NaN/None). -/
inductive Cell where
  | num (q : ℚ)
  | text (s : String)
  | na
deriving DecidableEq, Repr

/-- Presence test `pd.notna`: true for numbers and strings, false for NaN/None. -/
def Cell.notna : Cell → Bool
  | .na => false
  | _ => true

/-- Python exceptions that can escape the analyzer: `KeyError(col)` from a
column lookup, `ValueError(badString)` from `float()` on a non-numeric
string, and the embedding's marker for `float(NaN)` (a non-finite float,
not representable as an exact rational). -/
inductive Err where
  | keyError (col : String)
  | valueError (s : String)
  | nanValue
deriving DecidableEq, Repr

/-- Python `float(cell)`. -/
def Cell.toFloat : Cell → Except Err ℚ
  | .num q => .ok q
  | .text s => .error (.valueError s)
  | .na => .error .nanValue

/-- Label-based lookup in a row's column/value pairs (`row[col]` resolution). -/
def lookupCol : List (String × Cell) → String → Option Cell
  | [], _ => none
  | p :: ps, c => if c = p.1 then some p.2 else lookupCol ps c

/-- One row of the ticket table: the mandatory unique `Key`, the optional
`Assignee` column, and the remaining per-discipline columns. -/
structure Row where
  key : String
  assignee : Option String
  cells : List (String × Cell)
deriving DecidableEq, Repr

/-- Column access `row[col]`: ok with the cell, or pandas `KeyError(col)`. -/
def Row.getE (r : Row) (c : String) : Except Err Cell :=
  match lookupCol r.cells c with
  | some v => .ok v
  | none => .error (.keyError c)

/-- A discipline's column mapping: `{"original": .., "ai": .., "actual": ..}`. -/
structure Mapping where
  original : String
  ai : String
  actual : String
deriving DecidableEq, Repr

/-- The function `analyzer.calculate_percentage_diff`: `0` if either argument is
null/NaN (`pd.isna`), else `((actual - original) / original) * 100` when
`original != 0`, and `0` when `original == 0`. -/
def calculate_percentage_diff (original actual : Option ℚ) : ℚ :=
  match original, actual with
  | some o, some a => if o ≠ 0 then ((a - o) / o) * 100 else 0
  | _, _ => 0

/-- The dictionary returned by `analyzer.calculate_improvement`. -/
structure Improvement where
  originalVsActual : ℚ
  aiVsActual : ℚ
  overallImprovement : ℚ
deriving DecidableEq, Repr

/-- The function `analyzer.calculate_improvement`, line for line: zero-guard on the two
baselines, percentage deviations from actual, absolute errors, and the
error-reduction percentage capped into `[0, 100]` via `min(100, max(0, ·))`. -/
def calculate_improvement (originalTotal aiTotal actualTotal : ℚ) : Improvement :=
  if originalTotal = 0 ∨ actualTotal = 0 then
    { originalVsActual := 0, aiVsActual := 0, overallImprovement := 0 }
  else
    let originalDeviation := ((originalTotal - actualTotal) / actualTotal) * 100
    let aiDeviation := ((aiTotal - actualTotal) / actualTotal) * 100
    let originalError := |originalDeviation|
    let aiError := |aiDeviation|
    let improvement :=
      if originalError = 0 then 0
      else
        let errorReduction := originalError - aiError
        min 100 (max 0 (errorReduction / originalError * 100))
    { originalVsActual := originalDeviation, aiVsActual := aiDeviation,
      overallImprovement := improvement }

/-- Python's banker's rounding to an integer, idealized on exact rationals:
round half to even. -/
def pyRound (q : ℚ) : ℤ :=
  let f := ⌊q⌋
  let r := q - (f : ℚ)
  if r < 1 / 2 then f
  else if 1 / 2 < r then f + 1
  else if f % 2 = 0 then f else f + 1

/-- Python `round(q, 1)` on exact rationals. -/
def round1 (q : ℚ) : ℚ := (pyRound (q * 10) : ℚ) / 10

/-- A "Missing Data Details" record emitted for a partially-populated row. -/
structure MissingDetail where
  ticket : String
  assignee : String
  missingFields : List String
  presentFields : List String
  values : List (String × ℚ)
deriving DecidableEq, Repr

/-- The result dictionary of `analyzer.process_discipline_data`.  Field names
follow the dict keys: "Complete Data Points", "Partial Data Points",
"Missing Data Points", the three totals, the three rounded percentages, and
"Missing Data Details". -/
structure DisciplineResult where
  completeDataPoints : Nat
  partlyDataPoints : Nat
  missingDataPoints : Nat
  originalEstimateTotal : ℚ
  aiEstimateTotal : ℚ
  actualTimeTotal : ℚ
  originalVsActualPct : ℚ
  aiVsActualPct : ℚ
  estimationImprovementPct : ℚ
  missingDataDetails : List MissingDetail
deriving DecidableEq, Repr

/-- The loop state of the first pass of `analyzer.process_discipline_data`:
the three key sets and the accumulated detail records. -/
structure Pass1State where
  complete : Finset String
  partly : Finset String
  missing : Finset String
  details : List MissingDetail
deriving DecidableEq

/-- One field check inside the partial branch of pass 1: if the field is
present its value is coerced with `float` and recorded under `label` in the
present-fields and values accumulators, otherwise `label` joins the
missing-fields accumulator.  Returns
(missing-fields, present-fields, values) contributions. -/
def segField (label : String) (c : Cell) :
    Except Err (List String × List String × List (String × ℚ)) :=
  if c.notna then
    match c.toFloat with
    | .error e => .error e
    | .ok v => .ok ([], [label], [(label, v)])
  else .ok ([label], [], [])

/-- One iteration of the first pass of `analyzer.process_discipline_data`:
look the three mapped columns up, compute the presence flags, and file the
row's key into complete/partial/missing, appending a detail record in the
partial case (guarded, as in the source, on the values dict being
non-empty). -/
def processRow1 (m : Mapping) (st : Pass1State) (r : Row) : Except Err Pass1State :=
  match r.getE m.original with
  | .error e => .error e
  | .ok origCell =>
    match r.getE m.ai with
    | .error e => .error e
    | .ok aiCell =>
      match r.getE m.actual with
      | .error e => .error e
      | .ok actualCell =>
        let hasOriginal := origCell.notna
        let hasAi := aiCell.notna
        let hasActual := actualCell.notna
        if hasOriginal || hasAi || hasActual then
          if hasOriginal && hasAi && hasActual then
            .ok { st with complete := insert r.key st.complete }
          else
            let st1 := { st with partly := insert r.key st.partly }
            match segField "Original Estimate" origCell with
            | .error e => .error e
            | .ok s1 =>
              match segField "AI Estimate" aiCell with
              | .error e => .error e
              | .ok s2 =>
                match segField "Actual Time" actualCell with
                | .error e => .error e
                | .ok s3 =>
                  let values := s1.2.2 ++ s2.2.2 ++ s3.2.2
                  if values ≠ [] then
                    .ok { st1 with details := st1.details ++
                      [{ ticket := r.key,
                         assignee := r.assignee.getD "Unassigned",
                         missingFields := s1.1 ++ s2.1 ++ s3.1,
                         presentFields := s1.2.1 ++ s2.2.1 ++ s3.2.1,
                         values := values }] }
                  else .ok st1
        else .ok { st with missing := insert r.key st.missing }

/-- The first `for _, row in df.iterrows()` loop. -/
def pass1 (m : Mapping) : List Row → Pass1State → Except Err Pass1State
  | [], st => .ok st
  | r :: rs, st =>
    match processRow1 m st r with
    | .error e => .error e
    | .ok st' => pass1 m rs st'

/-- One iteration of the second pass: rows whose key landed in the complete
set have their three mapped values coerced and added to the running totals. -/
def processRow2 (m : Mapping) (complete : Finset String) (tot : ℚ × ℚ × ℚ)
    (r : Row) : Except Err (ℚ × ℚ × ℚ) :=
  if r.key ∈ complete then
    match r.getE m.original with
    | .error e => .error e
    | .ok origCell =>
      match origCell.toFloat with
      | .error e => .error e
      | .ok vo =>
        match r.getE m.ai with
        | .error e => .error e
        | .ok aiCell =>
          match aiCell.toFloat with
          | .error e => .error e
          | .ok va =>
            match r.getE m.actual with
            | .error e => .error e
            | .ok actualCell =>
              match actualCell.toFloat with
              | .error e => .error e
              | .ok vc => .ok (tot.1 + vo, tot.2.1 + va, tot.2.2 + vc)
  else .ok tot

/-- The second `for _, row in df.iterrows()` loop. -/
def pass2 (m : Mapping) (complete : Finset String) :
    List Row → ℚ × ℚ × ℚ → Except Err (ℚ × ℚ × ℚ)
  | [], tot => .ok tot
  | r :: rs, tot =>
    match processRow2 m complete tot r with
    | .error e => .error e
    | .ok tot' => pass2 m complete rs tot'

/-- The function `analyzer.process_discipline_data`: categorize every row, total the
complete rows, and fill the three rounded percentage fields when at least
one complete data point exists. -/
def process_discipline_data (df : List Row) (m : Mapping) :
    Except Err DisciplineResult :=
  match pass1 m df ⟨∅, ∅, ∅, []⟩ with
  | .error e => .error e
  | .ok st =>
    match pass2 m st.complete df (0, 0, 0) with
    | .error e => .error e
    | .ok (origTot, aiTot, actTot) =>
      let result : DisciplineResult :=
        { completeDataPoints := st.complete.card,
          partlyDataPoints := st.partly.card,
          missingDataPoints := st.missing.card,
          originalEstimateTotal := origTot,
          aiEstimateTotal := aiTot,
          actualTimeTotal := actTot,
          originalVsActualPct := 0,
          aiVsActualPct := 0,
          estimationImprovementPct := 0,
          missingDataDetails := st.details }
      if 0 < result.completeDataPoints then
        let improvements := calculate_improvement origTot aiTot actTot
        .ok { result with
          originalVsActualPct := round1 improvements.originalVsActual,
          aiVsActualPct := round1 improvements.aiVsActual,
          estimationImprovementPct := round1 improvements.overallImprovement }
      else .ok result

/-! ## Spec-side model of the improvement contract (for the refinement
claim about `calculate_improvement`) -/

/-- The spec's `clamp(x, lo, hi)`. -/
def clamp (x lo hi : ℚ) : ℚ := min hi (max lo x)

/-- Modelled from the spec's wording of the `improvement` contract
(§4.3): zero-baseline guard, deviations relative to `actual_total`,
absolute errors, and the clamped error-reduction fraction. -/
def improvement_spec_model (originalTotal aiTotal actualTotal : ℚ) : Improvement :=
  if originalTotal = 0 ∨ actualTotal = 0 then ⟨0, 0, 0⟩
  else
    let originalVsActual := ((originalTotal - actualTotal) / actualTotal) * 100
    let aiVsActual := ((aiTotal - actualTotal) / actualTotal) * 100
    let overall :=
      if |originalVsActual| = 0 then 0
      else clamp ((|originalVsActual| - |aiVsActual|) / |originalVsActual| * 100) 0 100
    ⟨originalVsActual, aiVsActual, overall⟩

/-- C3: `calculate_improvement` satisfies the spec contract: both baselines
zero-guarded, deviations measured relative to `actual_total`, and the
overall improvement equal to the clamped fraction of the original's
absolute error eliminated by the AI estimate (0 when the original error is
already 0). -/
theorem calculate_improvement_meets_spec (originalTotal aiTotal actualTotal : ℚ) :
    calculate_improvement originalTotal aiTotal actualTotal =
      improvement_spec_model originalTotal aiTotal actualTotal := by
  unfold calculate_improvement improvement_spec_model clamp
  split_ifs <;> rfl

/-- C4: `calculate_percentage_diff` returns `((actual - original) / original) * 100`
whenever both values are present and `original` is nonzero, and `0` when
`original` is absent or exactly zero; in particular the spec's four sample
points evaluate as stated. -/
theorem percentage_diff_contract (o a : ℚ) (ho : o ≠ 0) :
    calculate_percentage_diff (some o) (some a) = ((a - o) / o) * 100 ∧
    calculate_percentage_diff none (some a) = 0 ∧
    calculate_percentage_diff (some 0) (some a) = 0 ∧
    calculate_percentage_diff (some 100) (some 120) = 20 ∧
    calculate_percentage_diff (some 100) (some 80) = -20 := by
  refine ⟨?_, rfl, ?_, ?_, ?_⟩
  · simp [calculate_percentage_diff, ho]
  · simp [calculate_percentage_diff]
  · norm_num [calculate_percentage_diff]
  · norm_num [calculate_percentage_diff]

theorem percentage_diff_contract_witness :
    calculate_percentage_diff (some 100) (some 120) = ((120 - 100) / 100) * 100 ∧
    calculate_percentage_diff none (some 120) = 0 ∧
    calculate_percentage_diff (some 0) (some 120) = 0 ∧
    calculate_percentage_diff (some 100) (some 120) = 20 ∧
    calculate_percentage_diff (some 100) (some 80) = -20 :=
  percentage_diff_contract 100 120 (by norm_num)

/-- C9: the `pd.isna` guard of `calculate_percentage_diff` also absorbs a
missing `actual`: for any present nonzero `original`, a null/NaN `actual`
yields `0` — an edge the spec's guard list does not state. -/
theorem percentage_diff_zero_when_actual_missing (o : ℚ) (ho : o ≠ 0) :
    calculate_percentage_diff (some o) none = 0 := by
  simp [calculate_percentage_diff]

theorem percentage_diff_zero_when_actual_missing_witness :
    calculate_percentage_diff (some 100) none = 0 :=
  percentage_diff_zero_when_actual_missing 100 (by norm_num)

/-! ## Pure functional model of `process_discipline_data`

Each loop iteration is a function of the row alone; the lemmas below replay
the two passes as pure list computations (filters, maps, sums), which the
claim theorems then reason about. -/

/-- The cell is a non-numeric string (present but not float-coercible). -/
def Cell.isText : Cell → Bool
  | .text _ => true
  | _ => false

/-- The cell is a finite numeric value. -/
def Cell.isNum : Cell → Bool
  | .num _ => true
  | _ => false

/-- The numeric value of a cell, defaulting to 0 (used only where coercion
is known to succeed). -/
def Cell.floatD : Cell → ℚ
  | .num q => q
  | _ => 0

/-- The cell of column `c` in row `r`, defaulting to a missing value. -/
def Row.cellD (r : Row) (c : String) : Cell := (lookupCol r.cells c).getD .na

/-- All three mapped fields present (`has_original and has_ai and has_actual`). -/
def isComplete (m : Mapping) (r : Row) : Bool :=
  (r.cellD m.original).notna && (r.cellD m.ai).notna && (r.cellD m.actual).notna

/-- At least one but not all of the three mapped fields present. -/
def isPartly (m : Mapping) (r : Row) : Bool :=
  ((r.cellD m.original).notna || (r.cellD m.ai).notna || (r.cellD m.actual).notna)
    && !(isComplete m r)

/-- None of the three mapped fields present. -/
def isMissing (m : Mapping) (r : Row) : Bool :=
  !((r.cellD m.original).notna || (r.cellD m.ai).notna || (r.cellD m.actual).notna)

/-- All three mapped columns resolve in the row's schema. -/
def lookupsOk (m : Mapping) (r : Row) : Bool :=
  (lookupCol r.cells m.original).isSome && (lookupCol r.cells m.ai).isSome
    && (lookupCol r.cells m.actual).isSome

/-- None of the three mapped cells is a non-numeric string. -/
def noTextCell (m : Mapping) (r : Row) : Bool :=
  !(r.cellD m.original).isText && !(r.cellD m.ai).isText && !(r.cellD m.actual).isText

/-- All three mapped cells are finite numeric values. -/
def rowAllNum (m : Mapping) (r : Row) : Bool :=
  (r.cellD m.original).isNum && (r.cellD m.ai).isNum && (r.cellD m.actual).isNum

/-- Pass 1 handles the row without raising: the three lookups resolve and,
when the row is partial, its present cells coerce (pass 1 coerces only
those). -/
def rowOk1 (m : Mapping) (r : Row) : Bool :=
  lookupsOk m r && (!(isPartly m r) || noTextCell m r)

/-- The whole of `process_discipline_data` handles the row without raising
(pass 2 additionally coerces all three cells of complete rows). -/
def rowOk (m : Mapping) (r : Row) : Bool :=
  rowOk1 m r && (!(isComplete m r) || rowAllNum m r)

/-- Pure counterpart of `segField` (defined where coercion succeeds). -/
def segOf (label : String) (c : Cell) :
    List String × List String × List (String × ℚ) :=
  if c.notna then ([], [label], [(label, c.floatD)]) else ([label], [], [])

/-- The detail record pass 1 emits for a partial row. -/
def detailOf (m : Mapping) (r : Row) : MissingDetail :=
  let s1 := segOf "Original Estimate" (r.cellD m.original)
  let s2 := segOf "AI Estimate" (r.cellD m.ai)
  let s3 := segOf "Actual Time" (r.cellD m.actual)
  { ticket := r.key,
    assignee := r.assignee.getD "Unassigned",
    missingFields := s1.1 ++ s2.1 ++ s3.1,
    presentFields := s1.2.1 ++ s2.2.1 ++ s3.2.1,
    values := s1.2.2 ++ s2.2.2 ++ s3.2.2 }

/-- The pure state update a successful pass-1 iteration performs. -/
def upd1 (m : Mapping) (st : Pass1State) (r : Row) : Pass1State :=
  if isComplete m r then { st with complete := insert r.key st.complete }
  else if isPartly m r then
    { st with partly := insert r.key st.partly,
              details := st.details ++ [detailOf m r] }
  else { st with missing := insert r.key st.missing }

/-- Keys of the rows classified complete. -/
def completeKeys (m : Mapping) (rows : List Row) : Finset String :=
  ((rows.filter (isComplete m)).map Row.key).toFinset

/-- Keys of the rows classified partial. -/
def partlyKeys (m : Mapping) (rows : List Row) : Finset String :=
  ((rows.filter (isPartly m)).map Row.key).toFinset

/-- Keys of the rows classified missing. -/
def missingKeys (m : Mapping) (rows : List Row) : Finset String :=
  ((rows.filter (isMissing m)).map Row.key).toFinset

/-- The detail records pass 1 accumulates, in row order. -/
def detailsOf (m : Mapping) (rows : List Row) : List MissingDetail :=
  (rows.filter (isPartly m)).map (detailOf m)

/-- Every row is complete, partial or missing, and no row is two of them. -/
theorem classification_trichotomy (m : Mapping) (r : Row) :
    (isComplete m r = true ∧ isPartly m r = false ∧ isMissing m r = false) ∨
    (isComplete m r = false ∧ isPartly m r = true ∧ isMissing m r = false) ∨
    (isComplete m r = false ∧ isPartly m r = false ∧ isMissing m r = true) := by
  cases h1 : (r.cellD m.original).notna <;> cases h2 : (r.cellD m.ai).notna <;>
    cases h3 : (r.cellD m.actual).notna <;>
      simp_all [isComplete, isPartly, isMissing]

/-- A successful pass-1 iteration computes exactly the pure update. -/
theorem processRow1_ok (m : Mapping) (st : Pass1State) (r : Row)
    (h : rowOk1 m r = true) : processRow1 m st r = .ok (upd1 m st r) := by
  rcases hlo : lookupCol r.cells m.original with _ | co
  · simp [rowOk1, lookupsOk, hlo] at h
  rcases hla : lookupCol r.cells m.ai with _ | ca
  · simp [rowOk1, lookupsOk, hla] at h
  rcases hlc : lookupCol r.cells m.actual with _ | cc
  · simp [rowOk1, lookupsOk, hlc] at h
  cases co <;> cases ca <;> cases cc <;>
    simp_all [processRow1, upd1, rowOk1, lookupsOk, isComplete, isPartly, isMissing,
      noTextCell, Row.getE, Row.cellD, Cell.notna, Cell.toFloat, Cell.floatD,
      Cell.isText, segField, segOf, detailOf]

/-- A pass-1 iteration on a row it cannot handle raises. -/
theorem processRow1_err (m : Mapping) (st : Pass1State) (r : Row)
    (h : rowOk1 m r = false) : ∃ e, processRow1 m st r = .error e := by
  rcases hlo : lookupCol r.cells m.original with _ | co
  · exact ⟨.keyError m.original, by simp [processRow1, Row.getE, hlo]⟩
  rcases hla : lookupCol r.cells m.ai with _ | ca
  · exact ⟨.keyError m.ai, by simp [processRow1, Row.getE, hlo, hla]⟩
  rcases hlc : lookupCol r.cells m.actual with _ | cc
  · exact ⟨.keyError m.actual, by simp [processRow1, Row.getE, hlo, hla, hlc]⟩
  cases co <;> cases ca <;> cases cc <;>
    simp_all [processRow1, rowOk1, lookupsOk, isComplete, isPartly, isMissing,
      noTextCell, Row.getE, Row.cellD, Cell.notna, Cell.toFloat, Cell.isText,
      segField]

/-- With the three lookups resolving, a pass-1 error can only be a
`ValueError` (pass 1 never coerces absent cells). -/
theorem processRow1_err_val (m : Mapping) (st : Pass1State) (r : Row)
    (hl : lookupsOk m r = true) (e : Err)
    (h : processRow1 m st r = .error e) : ∃ s, e = .valueError s := by
  rcases hlo : lookupCol r.cells m.original with _ | co
  · simp [lookupsOk, hlo] at hl
  rcases hla : lookupCol r.cells m.ai with _ | ca
  · simp [lookupsOk, hla] at hl
  rcases hlc : lookupCol r.cells m.actual with _ | cc
  · simp [lookupsOk, hlc] at hl
  cases co <;> cases ca <;> cases cc <;>
    simp_all [processRow1, Row.getE, Cell.notna, Cell.toFloat, segField] <;>
    exact ⟨_, h.symm⟩

/-- Pass 1 over rows it can handle computes the three key sets and the
detail list as pure list operations. -/
theorem pass1_ok (m : Mapping) (rows : List Row) (st : Pass1State)
    (h : ∀ r ∈ rows, rowOk1 m r = true) :
    pass1 m rows st = .ok
      { complete := st.complete ∪ completeKeys m rows,
        partly := st.partly ∪ partlyKeys m rows,
        missing := st.missing ∪ missingKeys m rows,
        details := st.details ++ detailsOf m rows } := by
  induction rows generalizing st with
  | nil => simp [pass1, completeKeys, partlyKeys, missingKeys, detailsOf]
  | cons r rs ih =>
    have hr : rowOk1 m r = true := h r (List.mem_cons_self r rs)
    have htl : ∀ r' ∈ rs, rowOk1 m r' = true :=
      fun r' hr' => h r' (List.mem_cons_of_mem r hr')
    simp only [pass1, processRow1_ok m st r hr, ih _ htl]
    rcases classification_trichotomy m r with ⟨h1, h2, h3⟩ | ⟨h1, h2, h3⟩ | ⟨h1, h2, h3⟩ <;>
      simp [upd1, h1, h2, h3, completeKeys, partlyKeys, missingKeys, detailsOf,
        List.filter_cons, Finset.union_insert, Finset.insert_union]

/-- Pass 1 raises when some row cannot be handled. -/
theorem pass1_err (m : Mapping) (rows : List Row) (st : Pass1State)
    (h : ∃ r ∈ rows, rowOk1 m r = false) : ∃ e, pass1 m rows st = .error e := by
  induction rows generalizing st with
  | nil => simp at h
  | cons r rs ih =>
    by_cases hr : rowOk1 m r = true
    · obtain ⟨r', hr', hbad⟩ := h
      rcases List.mem_cons.mp hr' with rfl | htl
      · rw [hr] at hbad; cases hbad
      · obtain ⟨e, he⟩ := ih (upd1 m st r) ⟨r', htl, hbad⟩
        exact ⟨e, by simp only [pass1, processRow1_ok m st r hr]; exact he⟩
    · have hb : rowOk1 m r = false := by
        cases hx : rowOk1 m r
        · rfl
        · exact absurd hx hr
      obtain ⟨e, he⟩ := processRow1_err m st r hb
      exact ⟨e, by simp [pass1, he]⟩

/-- If pass 1 returned, every row was handled without raising. -/
theorem pass1_isOk_rowOk1 (m : Mapping) (rows : List Row) (st st' : Pass1State)
    (h : pass1 m rows st = .ok st') : ∀ r ∈ rows, rowOk1 m r = true := by
  intro r hr
  cases hx : rowOk1 m r
  · obtain ⟨e, he⟩ := pass1_err m rows st ⟨r, hr, hx⟩
    rw [he] at h; cases h
  · rfl

/-- With every row's lookups resolving, a pass-1 exception is a `ValueError`. -/
theorem pass1_err_val (m : Mapping) (rows : List Row) : ∀ (st : Pass1State) (e : Err),
    (∀ r ∈ rows, lookupsOk m r = true) → pass1 m rows st = .error e →
    ∃ s, e = .valueError s := by
  induction rows with
  | nil => intro st e _ h; simp [pass1] at h
  | cons r rs ih =>
    intro st e hl h
    cases hpr : processRow1 m st r with
    | error e' =>
      simp only [pass1, hpr] at h
      injection h with h2
      subst h2
      exact processRow1_err_val m st r (hl r (List.mem_cons_self r rs)) e' hpr
    | ok st1 =>
      simp only [pass1, hpr] at h
      exact ih st1 e (fun r' hr' => hl r' (List.mem_cons_of_mem r hr')) h

/-- The pure totals update a successful pass-2 iteration performs on a row
whose key is in the complete set. -/
def upd2 (m : Mapping) (tot : ℚ × ℚ × ℚ) (r : Row) : ℚ × ℚ × ℚ :=
  (tot.1 + (r.cellD m.original).floatD,
   tot.2.1 + (r.cellD m.ai).floatD,
   tot.2.2 + (r.cellD m.actual).floatD)

/-- Pass 2 handles the row without raising: the lookups resolve and all
three cells are finite numbers (pass 2 coerces all three). -/
def rowOk2 (m : Mapping) (r : Row) : Bool :=
  lookupsOk m r && rowAllNum m r

theorem processRow2_notin (m : Mapping) (S : Finset String) (tot : ℚ × ℚ × ℚ)
    (r : Row) (h : r.key ∉ S) : processRow2 m S tot r = .ok tot := by
  simp [processRow2, h]

theorem processRow2_in_ok (m : Mapping) (S : Finset String) (tot : ℚ × ℚ × ℚ)
    (r : Row) (h : r.key ∈ S) (hok : rowOk2 m r = true) :
    processRow2 m S tot r = .ok (upd2 m tot r) := by
  rcases hlo : lookupCol r.cells m.original with _ | co
  · simp [rowOk2, lookupsOk, hlo] at hok
  rcases hla : lookupCol r.cells m.ai with _ | ca
  · simp [rowOk2, lookupsOk, hla] at hok
  rcases hlc : lookupCol r.cells m.actual with _ | cc
  · simp [rowOk2, lookupsOk, hlc] at hok
  cases co <;> cases ca <;> cases cc <;>
    simp_all [processRow2, upd2, rowOk2, lookupsOk, rowAllNum, Row.getE,
      Row.cellD, Cell.isNum, Cell.toFloat, Cell.floatD]

theorem processRow2_in_err (m : Mapping) (S : Finset String) (tot : ℚ × ℚ × ℚ)
    (r : Row) (h : r.key ∈ S) (hbad : rowOk2 m r = false) :
    ∃ e, processRow2 m S tot r = .error e := by
  rcases hlo : lookupCol r.cells m.original with _ | co
  · exact ⟨.keyError m.original, by simp [processRow2, h, Row.getE, hlo]⟩
  cases co with
  | text s => exact ⟨.valueError s, by simp [processRow2, h, Row.getE, hlo, Cell.toFloat]⟩
  | na => exact ⟨.nanValue, by simp [processRow2, h, Row.getE, hlo, Cell.toFloat]⟩
  | num qo =>
    rcases hla : lookupCol r.cells m.ai with _ | ca
    · exact ⟨.keyError m.ai, by simp [processRow2, h, Row.getE, hlo, hla, Cell.toFloat]⟩
    cases ca with
    | text s =>
      exact ⟨.valueError s, by simp [processRow2, h, Row.getE, hlo, hla, Cell.toFloat]⟩
    | na => exact ⟨.nanValue, by simp [processRow2, h, Row.getE, hlo, hla, Cell.toFloat]⟩
    | num qa =>
      rcases hlc : lookupCol r.cells m.actual with _ | cc
      · exact ⟨.keyError m.actual,
          by simp [processRow2, h, Row.getE, hlo, hla, hlc, Cell.toFloat]⟩
      cases cc with
      | text s =>
        exact ⟨.valueError s,
          by simp [processRow2, h, Row.getE, hlo, hla, hlc, Cell.toFloat]⟩
      | na =>
        exact ⟨.nanValue, by simp [processRow2, h, Row.getE, hlo, hla, hlc, Cell.toFloat]⟩
      | num qc =>
        exfalso
        simp [rowOk2, lookupsOk, rowAllNum, Row.cellD, hlo, hla, hlc, Cell.isNum] at hbad

/-- Sum of `f` over the rows satisfying `p`, in row order. -/
def sumOver (rows : List Row) (p : Row → Bool) (f : Row → ℚ) : ℚ :=
  ((rows.filter p).map f).sum

/-- Pass 2 over rows it can handle adds, to each running total, the sum of
the corresponding coerced field over the rows whose key is in the complete
set. -/
theorem pass2_ok (m : Mapping) (S : Finset String) (rows : List Row) :
    ∀ tot : ℚ × ℚ × ℚ, (∀ r ∈ rows, r.key ∈ S → rowOk2 m r = true) →
    pass2 m S rows tot = .ok
      (tot.1 + sumOver rows (fun r => decide (r.key ∈ S)) (fun r => (r.cellD m.original).floatD),
       tot.2.1 + sumOver rows (fun r => decide (r.key ∈ S)) (fun r => (r.cellD m.ai).floatD),
       tot.2.2 + sumOver rows (fun r => decide (r.key ∈ S)) (fun r => (r.cellD m.actual).floatD)) := by
  induction rows with
  | nil => intro tot _; simp [pass2, sumOver]
  | cons r rs ih =>
    intro tot h
    by_cases hin : r.key ∈ S
    · have hr := h r (List.mem_cons_self r rs) hin
      simp only [pass2, processRow2_in_ok m S tot r hin hr]
      rw [ih (upd2 m tot r) (fun r' hr' hin' => h r' (List.mem_cons_of_mem r hr') hin')]
      simp [sumOver, upd2, List.filter_cons, hin, add_assoc]
    · simp only [pass2, processRow2_notin m S tot r hin]
      rw [ih tot (fun r' hr' hin' => h r' (List.mem_cons_of_mem r hr') hin')]
      simp [sumOver, List.filter_cons, hin]

/-- Pass 2 raises when some complete-keyed row cannot be handled. -/
theorem pass2_err (m : Mapping) (S : Finset String) (rows : List Row) :
    ∀ tot : ℚ × ℚ × ℚ, (∃ r ∈ rows, r.key ∈ S ∧ rowOk2 m r = false) →
    ∃ e, pass2 m S rows tot = .error e := by
  induction rows with
  | nil => intro tot h; simp at h
  | cons r rs ih =>
    intro tot h
    cases hpr : processRow2 m S tot r with
    | error e => exact ⟨e, by simp [pass2, hpr]⟩
    | ok tot1 =>
      obtain ⟨r', hr', hin, hbad⟩ := h
      rcases List.mem_cons.mp hr' with rfl | htl
      · obtain ⟨e, he⟩ := processRow2_in_err m S tot r' hin hbad
        rw [he] at hpr; cases hpr
      · obtain ⟨e, he⟩ := ih tot1 ⟨r', htl, hin, hbad⟩
        exact ⟨e, by simp only [pass2, hpr]; exact he⟩

/-- If pass 2 returned, every complete-keyed row was handled without raising. -/
theorem pass2_isOk_rowOk2 (m : Mapping) (S : Finset String) (rows : List Row)
    (tot tot' : ℚ × ℚ × ℚ) (h : pass2 m S rows tot = .ok tot') :
    ∀ r ∈ rows, r.key ∈ S → rowOk2 m r = true := by
  intro r hr hin
  cases hx : rowOk2 m r
  · obtain ⟨e, he⟩ := pass2_err m S rows tot ⟨r, hr, hin, hx⟩
    rw [he] at h; cases h
  · rfl

/-- With its lookups resolving, a pass-2 iteration never raises `KeyError`. -/
theorem processRow2_err_not_key (m : Mapping) (S : Finset String)
    (tot : ℚ × ℚ × ℚ) (r : Row) (e : Err) (hl : lookupsOk m r = true)
    (h : processRow2 m S tot r = .error e) : ∀ c, e ≠ .keyError c := by
  rcases hlo : lookupCol r.cells m.original with _ | co
  · simp [lookupsOk, hlo] at hl
  rcases hla : lookupCol r.cells m.ai with _ | ca
  · simp [lookupsOk, hla] at hl
  rcases hlc : lookupCol r.cells m.actual with _ | cc
  · simp [lookupsOk, hlc] at hl
  by_cases hin : r.key ∈ S
  · cases co <;> cases ca <;> cases cc <;>
      simp_all [processRow2, Row.getE, Cell.toFloat, hin] <;>
      simp [← h]
  · rw [processRow2_notin m S tot r hin] at h; cases h

/-- With every row's lookups resolving, pass 2 never raises `KeyError`. -/
theorem pass2_err_not_key (m : Mapping) (S : Finset String) (rows : List Row) :
    ∀ (tot : ℚ × ℚ × ℚ) (e : Err), (∀ r ∈ rows, lookupsOk m r = true) →
    pass2 m S rows tot = .error e → ∀ c, e ≠ .keyError c := by
  induction rows with
  | nil => intro tot e _ h; simp [pass2] at h
  | cons r rs ih =>
    intro tot e hl h
    cases hpr : processRow2 m S tot r with
    | error e' =>
      simp only [pass2, hpr] at h
      injection h with h2
      subst h2
      exact processRow2_err_not_key m S tot r e' (hl r (List.mem_cons_self r rs)) hpr
    | ok tot1 =>
      simp only [pass2, hpr] at h
      exact ih tot1 e (fun r' hr' => hl r' (List.mem_cons_of_mem r hr')) h

/-- A pass-2 iteration on a genuinely complete row (all three cells
present) fails only with a `ValueError`. -/
theorem processRow2_err_val (m : Mapping) (S : Finset String)
    (tot : ℚ × ℚ × ℚ) (r : Row) (e : Err) (hl : lookupsOk m r = true)
    (hc : isComplete m r = true) (h : processRow2 m S tot r = .error e) :
    ∃ s, e = .valueError s := by
  rcases hlo : lookupCol r.cells m.original with _ | co
  · simp [lookupsOk, hlo] at hl
  rcases hla : lookupCol r.cells m.ai with _ | ca
  · simp [lookupsOk, hla] at hl
  rcases hlc : lookupCol r.cells m.actual with _ | cc
  · simp [lookupsOk, hlc] at hl
  by_cases hin : r.key ∈ S
  · cases co <;> cases ca <;> cases cc <;>
      simp_all [processRow2, Row.getE, Row.cellD, Cell.toFloat, Cell.notna,
        isComplete, hin] <;>
      exact ⟨_, h.symm⟩
  · rw [processRow2_notin m S tot r hin] at h; cases h

/-- With lookups resolving everywhere and every in-set key belonging to a
complete row, a pass-2 exception is a `ValueError`. -/
theorem pass2_err_val (m : Mapping) (S : Finset String) (rows : List Row) :
    ∀ (tot : ℚ × ℚ × ℚ) (e : Err), (∀ r ∈ rows, lookupsOk m r = true) →
    (∀ r ∈ rows, r.key ∈ S → isComplete m r = true) →
    pass2 m S rows tot = .error e → ∃ s, e = .valueError s := by
  induction rows with
  | nil => intro tot e _ _ h; simp [pass2] at h
  | cons r rs ih =>
    intro tot e hl hc h
    cases hpr : processRow2 m S tot r with
    | error e' =>
      simp only [pass2, hpr] at h
      injection h with h2
      subst h2
      by_cases hin : r.key ∈ S
      · exact processRow2_err_val m S tot r e' (hl r (List.mem_cons_self r rs))
          (hc r (List.mem_cons_self r rs) hin) hpr
      · rw [processRow2_notin m S tot r hin] at hpr; cases hpr
    | ok tot1 =>
      simp only [pass2, hpr] at h
      exact ih tot1 e (fun r' hr' => hl r' (List.mem_cons_of_mem r hr'))
        (fun r' hr' hin => hc r' (List.mem_cons_of_mem r hr') hin) h

/-- The pure functional model of `analyzer.process_discipline_data` on a
table it processes without raising: counts are filter lengths, totals are
sums over the complete rows, percentages are the rounded improvement
metrics gated on a positive complete count, and the details follow row
order over the partial rows. -/
def resultPure (m : Mapping) (rows : List Row) : DisciplineResult :=
  let c := (rows.filter (isComplete m)).length
  let origTot := sumOver rows (isComplete m) (fun r => (r.cellD m.original).floatD)
  let aiTot := sumOver rows (isComplete m) (fun r => (r.cellD m.ai).floatD)
  let actTot := sumOver rows (isComplete m) (fun r => (r.cellD m.actual).floatD)
  { completeDataPoints := c,
    partlyDataPoints := (rows.filter (isPartly m)).length,
    missingDataPoints := (rows.filter (isMissing m)).length,
    originalEstimateTotal := origTot,
    aiEstimateTotal := aiTot,
    actualTimeTotal := actTot,
    originalVsActualPct :=
      if 0 < c then round1 (calculate_improvement origTot aiTot actTot).originalVsActual else 0,
    aiVsActualPct :=
      if 0 < c then round1 (calculate_improvement origTot aiTot actTot).aiVsActual else 0,
    estimationImprovementPct :=
      if 0 < c then round1 (calculate_improvement origTot aiTot actTot).overallImprovement else 0,
    missingDataDetails := detailsOf m rows }

/-- Under unique keys, membership of a row's key in the complete-key set is
exactly the row's own completeness. -/
theorem mem_completeKeys_iff (m : Mapping) (rows : List Row) (r : Row)
    (hnd : (rows.map Row.key).Nodup) (hr : r ∈ rows) :
    r.key ∈ completeKeys m rows ↔ isComplete m r = true := by
  unfold completeKeys
  rw [List.mem_toFinset, List.mem_map]
  constructor
  · rintro ⟨r', hr', hkey⟩
    obtain ⟨hr'mem, hr'comp⟩ := List.mem_filter.mp hr'
    have : r' = r := List.inj_on_of_nodup_map hnd hr'mem hr hkey
    subst this
    exact hr'comp
  · intro hc
    exact ⟨r, List.mem_filter.mpr ⟨hr, hc⟩, rfl⟩

/-- Under unique keys, the membership-in-complete-set filter over the rows
is the completeness filter. -/
theorem filter_completeKeys_eq (m : Mapping) (rows : List Row)
    (hnd : (rows.map Row.key).Nodup) :
    rows.filter (fun r => decide (r.key ∈ completeKeys m rows)) =
      rows.filter (isComplete m) := by
  refine List.filter_congr ?_
  intro r hr
  rcases hc : isComplete m r with _ | _
  · have : r.key ∉ completeKeys m rows := fun hmem => by
      rw [(mem_completeKeys_iff m rows r hnd hr).mp hmem] at hc; cases hc
    simp [this, hc]
  · simp [(mem_completeKeys_iff m rows r hnd hr).mpr hc, hc]

/-- Under unique keys, the card of each bucket's key set is the number of
rows the corresponding classifier accepts. -/
theorem card_bucket_eq (rows : List Row) (p : Row → Bool)
    (hnd : (rows.map Row.key).Nodup) :
    ((rows.filter p).map Row.key).toFinset.card = (rows.filter p).length := by
  have hsub : ((rows.filter p).map Row.key).Nodup :=
    hnd.sublist ((List.filter_sublist rows).map Row.key)
  rw [List.toFinset_card_of_nodup hsub, List.length_map]

/-- Sums over the complete-key filter coincide with sums over the
completeness filter when keys are unique. -/
theorem sumOver_keyfilter (m : Mapping) (rows : List Row)
    (hnd : (rows.map Row.key).Nodup) (f : Row → ℚ) :
    sumOver rows (fun r => decide (r.key ∈ completeKeys m rows)) f =
      sumOver rows (isComplete m) f := by
  unfold sumOver
  rw [filter_completeKeys_eq m rows hnd]

/-- If `process_discipline_data` returned, every row was handled without
raising anywhere in either pass. -/
theorem process_ok_rowOk (m : Mapping) (rows : List Row) (res : DisciplineResult)
    (h : process_discipline_data rows m = .ok res) :
    ∀ r ∈ rows, rowOk m r = true := by
  intro r hr
  unfold process_discipline_data at h
  cases hp1 : pass1 m rows ⟨∅, ∅, ∅, []⟩ with
  | error e => rw [hp1] at h; exact Except.noConfusion h
  | ok st =>
    have hok1 : ∀ r' ∈ rows, rowOk1 m r' = true := pass1_isOk_rowOk1 m rows _ st hp1
    cases hp2 : pass2 m st.complete rows (0, 0, 0) with
    | error e =>
      simp only [hp1, hp2] at h
      exact Except.noConfusion h
    | ok tot =>
      have hst : st = ⟨completeKeys m rows, partlyKeys m rows, missingKeys m rows,
          detailsOf m rows⟩ := by
        have h2 := pass1_ok m rows ⟨∅, ∅, ∅, []⟩ hok1
        rw [hp1] at h2
        injection h2 with h3
      have hok2 := pass2_isOk_rowOk2 m st.complete rows (0, 0, 0) tot hp2
      unfold rowOk
      rw [hok1 r hr]
      by_cases hc : isComplete m r = true
      · have hkey : r.key ∈ st.complete := by
          rw [hst]
          simp only [completeKeys]
          rw [List.mem_toFinset, List.mem_map]
          exact ⟨r, List.mem_filter.mpr ⟨hr, hc⟩, rfl⟩
        have h2 := hok2 r hr hkey
        unfold rowOk2 at h2
        simp only [Bool.and_eq_true] at h2
        simp [hc, h2.2]
      · simp only [Bool.not_eq_true] at hc
        simp [hc]

/-- On a uniquely-keyed table every row of which it can handle,
`process_discipline_data` returns exactly the pure model. -/
theorem process_eq_resultPure (m : Mapping) (rows : List Row)
    (hnd : (rows.map Row.key).Nodup)
    (hok : ∀ r ∈ rows, rowOk m r = true) :
    process_discipline_data rows m = .ok (resultPure m rows) := by
  have hok1 : ∀ r ∈ rows, rowOk1 m r = true := by
    intro r hr
    have hx := hok r hr
    simp only [rowOk, Bool.and_eq_true] at hx
    exact hx.1
  have hp1 := pass1_ok m rows ⟨∅, ∅, ∅, []⟩ hok1
  simp only [Finset.empty_union, List.nil_append] at hp1
  have hok2 : ∀ r ∈ rows, r.key ∈ completeKeys m rows → rowOk2 m r = true := by
    intro r hr hkey
    have hc : isComplete m r = true := (mem_completeKeys_iff m rows r hnd hr).mp hkey
    have hx := hok r hr
    simp only [rowOk, rowOk1, Bool.and_eq_true] at hx
    rcases hx with ⟨⟨hl, _⟩, hnum⟩
    rw [hc] at hnum
    simp only [Bool.not_true, Bool.false_or] at hnum
    simp [rowOk2, hl, hnum]
  have hp2 := pass2_ok m (completeKeys m rows) rows (0, 0, 0) hok2
  have hcard : (completeKeys m rows).card = (rows.filter (isComplete m)).length := by
    unfold completeKeys
    exact card_bucket_eq rows _ hnd
  have hcardp : (partlyKeys m rows).card = (rows.filter (isPartly m)).length := by
    unfold partlyKeys
    exact card_bucket_eq rows _ hnd
  have hcardm : (missingKeys m rows).card = (rows.filter (isMissing m)).length := by
    unfold missingKeys
    exact card_bucket_eq rows _ hnd
  unfold process_discipline_data
  rw [hp1]
  simp only [hp2]
  unfold resultPure
  simp only [hcard, hcardp, hcardm, sumOver_keyfilter m rows hnd, zero_add]
  split_ifs with hc <;> simp [hc]

/-- On a uniquely-keyed table, whatever `process_discipline_data` returns
is the pure model. -/
theorem process_ok_eq_resultPure (m : Mapping) (rows : List Row)
    (res : DisciplineResult) (hnd : (rows.map Row.key).Nodup)
    (h : process_discipline_data rows m = .ok res) : res = resultPure m rows := by
  have hx := process_eq_resultPure m rows hnd (process_ok_rowOk m rows res h)
  rw [h] at hx
  injection hx with h2

/-- With every row's lookups resolving, `process_discipline_data` never
raises `KeyError`. -/
theorem process_err_not_key (m : Mapping) (rows : List Row) (e : Err)
    (hl : ∀ r ∈ rows, lookupsOk m r = true)
    (h : process_discipline_data rows m = .error e) : ∀ c, e ≠ .keyError c := by
  unfold process_discipline_data at h
  cases hp1 : pass1 m rows ⟨∅, ∅, ∅, []⟩ with
  | error e1 =>
    simp only [hp1] at h
    injection h with h2
    subst h2
    obtain ⟨s, hs⟩ := pass1_err_val m rows ⟨∅, ∅, ∅, []⟩ e1 hl hp1
    subst hs
    intro c hc
    cases hc
  | ok st =>
    cases hp2 : pass2 m st.complete rows (0, 0, 0) with
    | error e2 =>
      simp only [hp1, hp2] at h
      injection h with h2
      subst h2
      exact pass2_err_not_key m st.complete rows (0, 0, 0) e2 hl hp2
    | ok tot =>
      simp only [hp1, hp2] at h
      split_ifs at h

/-- Some mapped cell of the row is a present non-coercible string. -/
def hasBadCell (m : Mapping) (r : Row) : Bool :=
  (r.cellD m.original).isText || (r.cellD m.ai).isText || (r.cellD m.actual).isText

/-- A row both passes handle has no present non-coercible cell. -/
theorem rowOk_no_badCell (m : Mapping) (r : Row) (h : rowOk m r = true) :
    hasBadCell m r = false := by
  cases h1 : r.cellD m.original <;> cases h2 : r.cellD m.ai <;> cases h3 : r.cellD m.actual <;>
    simp_all [rowOk, rowOk1, noTextCell, isComplete, isPartly, rowAllNum, hasBadCell,
      Cell.isText, Cell.isNum, Cell.notna]

/-- On a uniquely-keyed table whose lookups all resolve, a present
non-coercible value makes `process_discipline_data` raise a `ValueError`. -/
theorem process_err_val_of_bad (m : Mapping) (rows : List Row)
    (hnd : (rows.map Row.key).Nodup)
    (hl : ∀ r ∈ rows, lookupsOk m r = true)
    (hbad : ∃ r ∈ rows, hasBadCell m r = true) :
    ∃ s, process_discipline_data rows m = .error (.valueError s) := by
  cases hres : process_discipline_data rows m with
  | ok res =>
    exfalso
    obtain ⟨r, hr, hb⟩ := hbad
    have := rowOk_no_badCell m r (process_ok_rowOk m rows res hres r hr)
    rw [hb] at this
    cases this
  | error e =>
    have hval : ∃ s, e = .valueError s := by
      unfold process_discipline_data at hres
      cases hp1 : pass1 m rows ⟨∅, ∅, ∅, []⟩ with
      | error e1 =>
        simp only [hp1] at hres
        injection hres with h2
        subst h2
        exact pass1_err_val m rows ⟨∅, ∅, ∅, []⟩ e1 hl hp1
      | ok st =>
        cases hp2 : pass2 m st.complete rows (0, 0, 0) with
        | error e2 =>
          simp only [hp1, hp2] at hres
          injection hres with h2
          subst h2
          have hok1 := pass1_isOk_rowOk1 m rows ⟨∅, ∅, ∅, []⟩ st hp1
          have hst : st = ⟨completeKeys m rows, partlyKeys m rows, missingKeys m rows,
              detailsOf m rows⟩ := by
            have h2 := pass1_ok m rows ⟨∅, ∅, ∅, []⟩ hok1
            rw [hp1] at h2
            injection h2 with h3
          have hcomp : ∀ r ∈ rows, r.key ∈ st.complete → isComplete m r = true := by
            intro r hr hkey
            rw [hst] at hkey
            exact (mem_completeKeys_iff m rows r hnd hr).mp hkey
          exact pass2_err_val m st.complete rows (0, 0, 0) e2 hl hcomp hp2
        | ok tot =>
          simp only [hp1, hp2] at hres
          split_ifs at hres
    obtain ⟨s, rfl⟩ := hval
    exact ⟨s, rfl⟩

/-- When a mapped column is absent from a non-empty table's schema,
`process_discipline_data` raises a `KeyError` naming an absent column on
the very first row. -/
theorem process_missing_col (m : Mapping) (r : Row) (rest : List Row)
    (hmiss : lookupCol r.cells m.original = none ∨ lookupCol r.cells m.ai = none ∨
      lookupCol r.cells m.actual = none) :
    ∃ c, lookupCol r.cells c = none ∧
      process_discipline_data (r :: rest) m = .error (.keyError c) := by
  rcases hlo : lookupCol r.cells m.original with _ | co
  · exact ⟨m.original, hlo, by
      simp [process_discipline_data, pass1, processRow1, Row.getE, hlo]⟩
  rcases hla : lookupCol r.cells m.ai with _ | ca
  · exact ⟨m.ai, hla, by
      simp [process_discipline_data, pass1, processRow1, Row.getE, hlo, hla]⟩
  rcases hlc : lookupCol r.cells m.actual with _ | cc
  · exact ⟨m.actual, hlc, by
      simp [process_discipline_data, pass1, processRow1, Row.getE, hlo, hla, hlc]⟩
  simp [hlo, hla, hlc] at hmiss

/-- The three classifiers partition the rows by count. -/
theorem filter3_length (m : Mapping) (rows : List Row) :
    (rows.filter (isComplete m)).length + (rows.filter (isPartly m)).length +
      (rows.filter (isMissing m)).length = rows.length := by
  induction rows with
  | nil => simp
  | cons r rs ih =>
    rcases classification_trichotomy m r with ⟨h1, h2, h3⟩ | ⟨h1, h2, h3⟩ | ⟨h1, h2, h3⟩ <;>
      simp [List.filter_cons, h1, h2, h3] <;> omega

/-- The detail record of a partial row: the ticket is the row's key, the
present and missing field lists are disjoint, together they enumerate
exactly the three field kinds, and the values mapping is keyed by exactly
the present fields. -/
theorem detailOf_props (m : Mapping) (r : Row) (hp : isPartly m r = true) :
    (detailOf m r).ticket = r.key ∧
    (∀ f ∈ (detailOf m r).presentFields, f ∉ (detailOf m r).missingFields) ∧
    ((detailOf m r).presentFields ++ (detailOf m r).missingFields).Perm
      ["Original Estimate", "AI Estimate", "Actual Time"] ∧
    (detailOf m r).values.map Prod.fst = (detailOf m r).presentFields := by
  cases h1 : (r.cellD m.original).notna <;> cases h2 : (r.cellD m.ai).notna <;>
    cases h3 : (r.cellD m.actual).notna <;>
      simp_all [isPartly, isComplete, detailOf, segOf] <;>
      decide

/-! ## The `analyze_estimates.py` variant and its script-level totals -/

/-- The result dict of `analyze_estimates.process_discipline_data`: that
variant only examines rows whose original estimate is present, counting
them complete when AI and actual are also present and "missing" otherwise
(rows with no original estimate are skipped entirely); incomplete rows
still contribute their original estimate to the original total. -/
structure AEResult where
  completeDataPoints : Nat
  missingDataPoints : Nat
  originalEstimateTotal : ℚ
  aiEstimateTotal : ℚ
  actualTimeTotal : ℚ
deriving DecidableEq, Repr

/-- One iteration of the `analyze_estimates.process_discipline_data` loop
(`and` short-circuits, so the actual column is only read when the AI value
is present). -/
def processRowAE (m : Mapping) (st : AEResult) (r : Row) : Except Err AEResult :=
  match r.getE m.original with
  | .error e => .error e
  | .ok origCell =>
    if origCell.notna then
      match r.getE m.ai with
      | .error e => .error e
      | .ok aiCell =>
        if aiCell.notna then
          match r.getE m.actual with
          | .error e => .error e
          | .ok actualCell =>
            if actualCell.notna then
              match origCell.toFloat with
              | .error e => .error e
              | .ok vo =>
                match aiCell.toFloat with
                | .error e => .error e
                | .ok va =>
                  match actualCell.toFloat with
                  | .error e => .error e
                  | .ok vc =>
                    .ok { st with
                      completeDataPoints := st.completeDataPoints + 1,
                      originalEstimateTotal := st.originalEstimateTotal + vo,
                      aiEstimateTotal := st.aiEstimateTotal + va,
                      actualTimeTotal := st.actualTimeTotal + vc }
            else
              match origCell.toFloat with
              | .error e => .error e
              | .ok vo =>
                .ok { st with
                  missingDataPoints := st.missingDataPoints + 1,
                  originalEstimateTotal := st.originalEstimateTotal + vo }
        else
          match origCell.toFloat with
          | .error e => .error e
          | .ok vo =>
            .ok { st with
              missingDataPoints := st.missingDataPoints + 1,
              originalEstimateTotal := st.originalEstimateTotal + vo }
    else .ok st

/-- The `for _, row in df.iterrows()` loop of the variant. -/
def passAE (m : Mapping) : List Row → AEResult → Except Err AEResult
  | [], st => .ok st
  | r :: rs, st =>
    match processRowAE m st r with
    | .error e => .error e
    | .ok st' => passAE m rs st'

/-- The variant `analyze_estimates.process_discipline_data`. -/
def process_discipline_data_ae (df : List Row) (m : Mapping) : Except Err AEResult :=
  passAE m df ⟨0, 0, 0, 0, 0⟩

/-- The script-level `for discipline in disciplines` accumulation of
complete/incomplete counts and the three hour totals. -/
def scriptTotals (rows : List Row) : List Mapping → Nat × Nat × ℚ × ℚ × ℚ →
    Except Err (Nat × Nat × ℚ × ℚ × ℚ)
  | [], acc => .ok acc
  | m :: ms, acc =>
    match process_discipline_data_ae rows m with
    | .error e => .error e
    | .ok res => scriptTotals rows ms
        (acc.1 + res.completeDataPoints,
         acc.2.1 + res.missingDataPoints,
         acc.2.2.1 + res.originalEstimateTotal,
         acc.2.2.2.1 + res.aiEstimateTotal,
         acc.2.2.2.2 + res.actualTimeTotal)

/-- The script's `overall_completion_rate`: completes over
(completes + incompletes), guarded to 0 for an empty denominator. -/
def overall_completion_rate (rows : List Row) (ms : List Mapping) : Except Err ℚ :=
  match scriptTotals rows ms (0, 0, 0, 0, 0) with
  | .error e => .error e
  | .ok acc =>
    .ok (if 0 < acc.1 + acc.2.1
      then (acc.1 : ℚ) / ((acc.1 : ℚ) + (acc.2.1 : ℚ)) * 100
      else 0)

/-- The complete count of a discipline under the variant, defaulting to 0
on an exception. -/
def aeCompleteD (rows : List Row) (m : Mapping) : Nat :=
  match process_discipline_data_ae rows m with
  | .ok res => res.completeDataPoints
  | .error _ => 0

/-- The "missing" (incomplete) count of a discipline under the variant,
defaulting to 0 on an exception. -/
def aeMissingD (rows : List Row) (m : Mapping) : Nat :=
  match process_discipline_data_ae rows m with
  | .ok res => res.missingDataPoints
  | .error _ => 0

/-- The number of unique ticket keys in the table
(`len(df["Key"].unique())`). -/
def totalUniqueTickets (rows : List Row) : Nat := (rows.map Row.key).dedup.length

/-- A successful totals accumulation sums the per-discipline complete and
incomplete counts. -/
theorem scriptTotals_counts (rows : List Row) (ms : List Mapping) :
    ∀ acc res, scriptTotals rows ms acc = .ok res →
      res.1 = acc.1 + (ms.map (aeCompleteD rows)).sum ∧
      res.2.1 = acc.2.1 + (ms.map (aeMissingD rows)).sum := by
  induction ms with
  | nil =>
    intro acc res h
    simp only [scriptTotals] at h
    injection h with h2
    subst h2
    simp
  | cons m ms ih =>
    intro acc res h
    cases hae : process_discipline_data_ae rows m with
    | error e =>
      simp only [scriptTotals, hae] at h
      exact Except.noConfusion h
    | ok r0 =>
      simp only [scriptTotals, hae] at h
      obtain ⟨h1, h2⟩ := ih _ res h
      constructor
      · rw [h1]; simp [aeCompleteD, hae]; omega
      · rw [h2]; simp [aeMissingD, hae]; omega

/-- C5 (amended): the overall completion rate equals
total complete / (total complete + total incomplete) × 100 — the counts
being summed per discipline over rows with a present original estimate —
and 0 when that denominator is zero; the denominator is not the unique
ticket count. -/
theorem overall_completion_rate_formula (rows : List Row) (ms : List Mapping)
    (q : ℚ) (h : overall_completion_rate rows ms = .ok q) :
    q = (if 0 < (ms.map (aeCompleteD rows)).sum + (ms.map (aeMissingD rows)).sum
      then ((ms.map (aeCompleteD rows)).sum : ℚ) /
        (((ms.map (aeCompleteD rows)).sum : ℚ) + ((ms.map (aeMissingD rows)).sum : ℚ)) * 100
      else 0) := by
  unfold overall_completion_rate at h
  cases hs : scriptTotals rows ms (0, 0, 0, 0, 0) with
  | error e =>
    simp only [hs] at h
    exact Except.noConfusion h
  | ok acc =>
    simp only [hs] at h
    injection h with h2
    obtain ⟨h1, h3⟩ := scriptTotals_counts rows ms _ acc hs
    rw [← h2, h1, h3]
    norm_num

/-- Rows for the C5 counterexample: one ticket complete in the discipline,
one ticket with no data at all. -/
def cxRowFull : Row := ⟨"T1", none, [("O", .num 1), ("A", .num 1), ("C", .num 1)]⟩

def cxRowEmpty : Row := ⟨"T2", none, [("O", .na), ("A", .na), ("C", .na)]⟩

def cxMap : Mapping := ⟨"O", "A", "C"⟩

/-- C5 counterexample: with two unique tickets of which one is complete,
the code reports a 100% completion rate (the no-data ticket is never
counted), while the claimed formula total_complete / total_unique × 100
gives 50%. -/
theorem overall_rate_not_unique_ticket_ratio :
    overall_completion_rate [cxRowFull, cxRowEmpty] [cxMap] = .ok 100 ∧
    ([cxMap].map (aeCompleteD [cxRowFull, cxRowEmpty])).sum = 1 ∧
    totalUniqueTickets [cxRowFull, cxRowEmpty] = 2 ∧
    (100 : ℚ) ≠ ((1 : ℚ) / (2 : ℚ)) * 100 := by
  refine ⟨?_, ?_, by decide, by norm_num⟩
  · simp [overall_completion_rate, scriptTotals, process_discipline_data_ae, passAE,
      processRowAE, Row.getE, lookupCol, Cell.notna, Cell.toFloat,
      cxRowFull, cxRowEmpty, cxMap]
  · simp [aeCompleteD, process_discipline_data_ae, passAE, processRowAE, Row.getE,
      lookupCol, Cell.notna, Cell.toFloat, cxRowFull, cxRowEmpty, cxMap]

theorem overall_completion_rate_formula_witness :
    (100 : ℚ) = (if 0 < ([cxMap].map (aeCompleteD [cxRowFull, cxRowEmpty])).sum +
        ([cxMap].map (aeMissingD [cxRowFull, cxRowEmpty])).sum
      then (([cxMap].map (aeCompleteD [cxRowFull, cxRowEmpty])).sum : ℚ) /
        ((([cxMap].map (aeCompleteD [cxRowFull, cxRowEmpty])).sum : ℚ) +
          (([cxMap].map (aeMissingD [cxRowFull, cxRowEmpty])).sum : ℚ)) * 100
      else 0) :=
  overall_completion_rate_formula [cxRowFull, cxRowEmpty] [cxMap] 100 (by
    simp [overall_completion_rate, scriptTotals, process_discipline_data_ae, passAE,
      processRowAE, Row.getE, lookupCol, Cell.notna, Cell.toFloat,
      cxRowFull, cxRowEmpty, cxMap])

/-! ## Claim theorems about `analyzer.process_discipline_data` -/

/-- The spec's four-ticket example table (§8): T1/T2 complete, T3 missing
the AI estimate, T4 missing the original estimate. -/
def exRows : List Row :=
  [⟨"T1", none, [("O", .num 4), ("A", .num 3.5), ("C", .num 3.8)]⟩,
   ⟨"T2", none, [("O", .num 6), ("A", .num 5.5), ("C", .num 5.8)]⟩,
   ⟨"T3", none, [("O", .num 3), ("A", .na), ("C", .num 2.8)]⟩,
   ⟨"T4", none, [("O", .na), ("A", .num 2), ("C", .num 1.8)]⟩]

def exMap : Mapping := ⟨"O", "A", "C"⟩

/-- C1: on a table with unique non-blank keys that
`process_discipline_data` accepts, every row falls in exactly one of the
Complete/Partial/Missing buckets, the three reported counts are the bucket
sizes, and they sum to the number of unique ticket keys. -/
theorem buckets_partition_counts (m : Mapping) (rows : List Row)
    (res : DisciplineResult) (hnd : (rows.map Row.key).Nodup)
    (hnb : "" ∉ rows.map Row.key)
    (h : process_discipline_data rows m = .ok res) :
    (∀ r ∈ rows,
      (isComplete m r = true ∧ isPartly m r = false ∧ isMissing m r = false) ∨
      (isComplete m r = false ∧ isPartly m r = true ∧ isMissing m r = false) ∨
      (isComplete m r = false ∧ isPartly m r = false ∧ isMissing m r = true)) ∧
    res.completeDataPoints = (rows.filter (isComplete m)).length ∧
    res.partlyDataPoints = (rows.filter (isPartly m)).length ∧
    res.missingDataPoints = (rows.filter (isMissing m)).length ∧
    res.completeDataPoints + res.partlyDataPoints + res.missingDataPoints =
      totalUniqueTickets rows := by
  have hres := process_ok_eq_resultPure m rows res hnd h
  subst hres
  refine ⟨fun r _ => classification_trichotomy m r, rfl, rfl, rfl, ?_⟩
  unfold totalUniqueTickets
  rw [List.dedup_eq_self.mpr hnd, List.length_map]
  exact filter3_length m rows

theorem buckets_partition_counts_witness :
    (∀ r ∈ exRows,
      (isComplete exMap r = true ∧ isPartly exMap r = false ∧ isMissing exMap r = false) ∨
      (isComplete exMap r = false ∧ isPartly exMap r = true ∧ isMissing exMap r = false) ∨
      (isComplete exMap r = false ∧ isPartly exMap r = false ∧ isMissing exMap r = true)) ∧
    (resultPure exMap exRows).completeDataPoints =
      (exRows.filter (isComplete exMap)).length ∧
    (resultPure exMap exRows).partlyDataPoints =
      (exRows.filter (isPartly exMap)).length ∧
    (resultPure exMap exRows).missingDataPoints =
      (exRows.filter (isMissing exMap)).length ∧
    (resultPure exMap exRows).completeDataPoints +
      (resultPure exMap exRows).partlyDataPoints +
      (resultPure exMap exRows).missingDataPoints = totalUniqueTickets exRows :=
  buckets_partition_counts exMap exRows (resultPure exMap exRows) (by decide) (by decide)
    (process_eq_resultPure exMap exRows (by decide) (by decide))

/-- C2: on a uniquely-keyed table that `process_discipline_data` accepts,
each of the three totals is the sum of the float-coerced field over exactly
the complete rows — partial and missing rows contribute nothing. -/
theorem totals_only_complete (m : Mapping) (rows : List Row)
    (res : DisciplineResult) (hnd : (rows.map Row.key).Nodup)
    (h : process_discipline_data rows m = .ok res) :
    res.originalEstimateTotal =
      sumOver rows (isComplete m) (fun r => (r.cellD m.original).floatD) ∧
    res.aiEstimateTotal =
      sumOver rows (isComplete m) (fun r => (r.cellD m.ai).floatD) ∧
    res.actualTimeTotal =
      sumOver rows (isComplete m) (fun r => (r.cellD m.actual).floatD) ∧
    res.completeDataPoints = (rows.filter (isComplete m)).length ∧
    res.partlyDataPoints = (rows.filter (isPartly m)).length := by
  have hres := process_ok_eq_resultPure m rows res hnd h
  subst hres
  exact ⟨rfl, rfl, rfl, rfl, rfl⟩

theorem totals_only_complete_witness :
    ((resultPure exMap exRows).originalEstimateTotal =
        sumOver exRows (isComplete exMap) (fun r => (r.cellD exMap.original).floatD) ∧
      (resultPure exMap exRows).aiEstimateTotal =
        sumOver exRows (isComplete exMap) (fun r => (r.cellD exMap.ai).floatD) ∧
      (resultPure exMap exRows).actualTimeTotal =
        sumOver exRows (isComplete exMap) (fun r => (r.cellD exMap.actual).floatD) ∧
      (resultPure exMap exRows).completeDataPoints =
        (exRows.filter (isComplete exMap)).length ∧
      (resultPure exMap exRows).partlyDataPoints =
        (exRows.filter (isPartly exMap)).length) ∧
    (resultPure exMap exRows).originalEstimateTotal = 10 ∧
    (resultPure exMap exRows).aiEstimateTotal = 9 ∧
    (resultPure exMap exRows).actualTimeTotal = 9.6 ∧
    (resultPure exMap exRows).completeDataPoints = 2 ∧
    (resultPure exMap exRows).partlyDataPoints = 2 := by
  refine ⟨totals_only_complete exMap exRows (resultPure exMap exRows) (by decide)
      (process_eq_resultPure exMap exRows (by decide) (by decide)), ?_, ?_, ?_, ?_, ?_⟩ <;>
    · simp [resultPure, sumOver, exRows, exMap, isComplete, isPartly, Row.cellD,
        lookupCol, Cell.notna, Cell.floatD]
      try norm_num

/-- C8 (amended): permuting the rows of a uniquely-keyed table that
`process_discipline_data` accepts leaves every count, total and percentage
field unchanged; the Missing Data Details sequence is preserved only up to
order, because its emission order follows the table's row order. -/
theorem permuted_rows_same_scalars (m : Mapping) (rows rows' : List Row)
    (res : DisciplineResult) (hperm : rows.Perm rows')
    (hnd : (rows.map Row.key).Nodup)
    (h : process_discipline_data rows m = .ok res) :
    ∃ res', process_discipline_data rows' m = .ok res' ∧
      res'.completeDataPoints = res.completeDataPoints ∧
      res'.partlyDataPoints = res.partlyDataPoints ∧
      res'.missingDataPoints = res.missingDataPoints ∧
      res'.originalEstimateTotal = res.originalEstimateTotal ∧
      res'.aiEstimateTotal = res.aiEstimateTotal ∧
      res'.actualTimeTotal = res.actualTimeTotal ∧
      res'.originalVsActualPct = res.originalVsActualPct ∧
      res'.aiVsActualPct = res.aiVsActualPct ∧
      res'.estimationImprovementPct = res.estimationImprovementPct ∧
      res'.missingDataDetails.Perm res.missingDataDetails := by
  have hok := process_ok_rowOk m rows res h
  have hok' : ∀ r ∈ rows', rowOk m r = true := fun r hr => hok r (hperm.mem_iff.mpr hr)
  have hnd' : (rows'.map Row.key).Nodup := ((hperm.map Row.key).nodup_iff).mp hnd
  have hres := process_ok_eq_resultPure m rows res hnd h
  subst hres
  have hlc : (rows'.filter (isComplete m)).length = (rows.filter (isComplete m)).length :=
    ((hperm.filter (isComplete m)).length_eq).symm
  have hlp : (rows'.filter (isPartly m)).length = (rows.filter (isPartly m)).length :=
    ((hperm.filter (isPartly m)).length_eq).symm
  have hlm : (rows'.filter (isMissing m)).length = (rows.filter (isMissing m)).length :=
    ((hperm.filter (isMissing m)).length_eq).symm
  have hs1 : sumOver rows' (isComplete m) (fun r => (r.cellD m.original).floatD) =
      sumOver rows (isComplete m) (fun r => (r.cellD m.original).floatD) :=
    (((hperm.filter (isComplete m)).map _).sum_eq).symm
  have hs2 : sumOver rows' (isComplete m) (fun r => (r.cellD m.ai).floatD) =
      sumOver rows (isComplete m) (fun r => (r.cellD m.ai).floatD) :=
    (((hperm.filter (isComplete m)).map _).sum_eq).symm
  have hs3 : sumOver rows' (isComplete m) (fun r => (r.cellD m.actual).floatD) =
      sumOver rows (isComplete m) (fun r => (r.cellD m.actual).floatD) :=
    (((hperm.filter (isComplete m)).map _).sum_eq).symm
  have hdet : (detailsOf m rows').Perm (detailsOf m rows) :=
    ((hperm.filter (isPartly m)).map (detailOf m)).symm
  refine ⟨resultPure m rows', process_eq_resultPure m rows' hnd' hok',
    hlc, hlp, hlm, hs1, hs2, hs3, ?_, ?_, ?_, hdet⟩ <;>
    · simp only [resultPure]
      rw [hlc, hs1, hs2, hs3]

/-- Two partial rows for the C8 counterexample. -/
def pRowA : Row := ⟨"P1", none, [("O", .num 1), ("A", .na), ("C", .na)]⟩

def pRowB : Row := ⟨"P2", none, [("O", .num 2), ("A", .na), ("C", .na)]⟩

/-- C8 counterexample: swapping two partial rows permutes the table but
reverses the Missing Data Details sequence, so not every `DisciplineResult`
field is preserved under row permutation. -/
theorem details_order_depends_on_row_order :
    ([pRowA, pRowB].Perm [pRowB, pRowA]) ∧
    (∃ res1 res2, process_discipline_data [pRowA, pRowB] exMap = .ok res1 ∧
      process_discipline_data [pRowB, pRowA] exMap = .ok res2 ∧
      res1.missingDataDetails ≠ res2.missingDataDetails) := by
  refine ⟨by decide, resultPure exMap [pRowA, pRowB], resultPure exMap [pRowB, pRowA],
    process_eq_resultPure exMap [pRowA, pRowB] (by decide) (by decide),
    process_eq_resultPure exMap [pRowB, pRowA] (by decide) (by decide), ?_⟩
  intro heq
  have hmap := congrArg (List.map MissingDetail.ticket) heq
  simp [resultPure, detailsOf, detailOf, segOf, pRowA, pRowB, exMap, isPartly,
    isComplete, Row.cellD, lookupCol, Cell.notna] at hmap

/-- Whatever `process_discipline_data` returns (no key-uniqueness needed),
its Missing Data Details list is the per-row detail of each partial row, in
row order. -/
theorem process_ok_details (m : Mapping) (rows : List Row) (res : DisciplineResult)
    (h : process_discipline_data rows m = .ok res) :
    res.missingDataDetails = detailsOf m rows := by
  unfold process_discipline_data at h
  cases hp1 : pass1 m rows ⟨∅, ∅, ∅, []⟩ with
  | error e =>
    simp only [hp1] at h
    exact Except.noConfusion h
  | ok st =>
    have hok1 := pass1_isOk_rowOk1 m rows _ st hp1
    have hst : st = ⟨completeKeys m rows, partlyKeys m rows, missingKeys m rows,
        detailsOf m rows⟩ := by
      have h2 := pass1_ok m rows ⟨∅, ∅, ∅, []⟩ hok1
      rw [hp1] at h2
      injection h2 with h3
    cases hp2 : pass2 m st.complete rows (0, 0, 0) with
    | error e =>
      simp only [hp1, hp2] at h
      exact Except.noConfusion h
    | ok tot =>
      obtain ⟨origTot, aiTot, actTot⟩ := tot
      simp only [hp1, hp2] at h
      split_ifs at h <;>
      · injection h with h2
        subst h2
        rw [hst]

/-- C10: every partial row contributes exactly one Missing Data Details
record (none for complete or missing rows), carrying its key; in each
record the present and missing field lists are disjoint and together
enumerate exactly the three field kinds, and the values mapping is keyed by
exactly the present fields. -/
theorem missing_details_per_partial_row (m : Mapping) (rows : List Row)
    (res : DisciplineResult) (h : process_discipline_data rows m = .ok res) :
    res.missingDataDetails.map MissingDetail.ticket =
      (rows.filter (isPartly m)).map Row.key ∧
    ∀ d ∈ res.missingDataDetails,
      (∀ f ∈ d.presentFields, f ∉ d.missingFields) ∧
      (d.presentFields ++ d.missingFields).Perm
        ["Original Estimate", "AI Estimate", "Actual Time"] ∧
      d.values.map Prod.fst = d.presentFields := by
  rw [process_ok_details m rows res h]
  constructor
  · unfold detailsOf
    rw [List.map_map]
    rfl
  · intro d hd
    obtain ⟨r, hr, rfl⟩ := List.mem_map.mp hd
    have hp := (List.mem_filter.mp hr).2
    obtain ⟨_, h1, h2, h3⟩ := detailOf_props m r hp
    exact ⟨h1, h2, h3⟩

theorem missing_details_per_partial_row_witness :
    ((resultPure exMap exRows).missingDataDetails.map MissingDetail.ticket =
      (exRows.filter (isPartly exMap)).map Row.key) ∧
    ∀ d ∈ (resultPure exMap exRows).missingDataDetails,
      (∀ f ∈ d.presentFields, f ∉ d.missingFields) ∧
      (d.presentFields ++ d.missingFields).Perm
        ["Original Estimate", "AI Estimate", "Actual Time"] ∧
      d.values.map Prod.fst = d.presentFields :=
  missing_details_per_partial_row exMap exRows (resultPure exMap exRows)
    (process_eq_resultPure exMap exRows (by decide) (by decide))

/-- The field identifier resolves in at least one row of the table (for a
uniform-schema frame this is column membership in the schema). -/
def tableHasCol (rows : List Row) (c : String) : Bool :=
  rows.any (fun r => (lookupCol r.cells c).isSome)

/-- C6 (amended): on a non-empty table, a mapping referencing a column
absent from the first row's schema makes `process_discipline_data` raise a
`KeyError` naming an absent column (the configuration error); when the
three mapped columns resolve in every row, no `KeyError` is raised. -/
theorem missing_column_raises (m : Mapping) (rows : List Row) :
    (∀ r rest, rows = r :: rest →
      (lookupCol r.cells m.original = none ∨ lookupCol r.cells m.ai = none ∨
        lookupCol r.cells m.actual = none) →
      ∃ c, lookupCol r.cells c = none ∧
        process_discipline_data rows m = .error (.keyError c)) ∧
    ((∀ r ∈ rows, lookupsOk m r = true) →
      ∀ e c, process_discipline_data rows m = .error e → e ≠ .keyError c) := by
  constructor
  · rintro r rest rfl hmiss
    exact process_missing_col m r rest hmiss
  · intro hl e c hproc
    exact process_err_not_key m rows e hl hproc c

/-- A mapping none of whose columns exists anywhere. -/
def badMap : Mapping := ⟨"Q1", "Q2", "Q3"⟩

/-- A one-row table without the mapped columns. -/
def soloRow : Row := ⟨"T9", none, [("X", .num 1)]⟩

/-- C6 counterexample: on the empty ticket table, whose schema resolves no
column at all (so the mapped fields are certainly absent from it),
`process_discipline_data` silently returns the zero-valued result instead
of failing with a configuration error. -/
theorem empty_table_missing_column_no_error :
    tableHasCol [] badMap.original = false ∧
    tableHasCol [] badMap.ai = false ∧
    tableHasCol [] badMap.actual = false ∧
    process_discipline_data [] badMap = .ok ⟨0, 0, 0, 0, 0, 0, 0, 0, 0, []⟩ :=
  ⟨rfl, rfl, rfl, rfl⟩

theorem missing_column_raises_witness :
    (∃ c, lookupCol soloRow.cells c = none ∧
      process_discipline_data [soloRow] badMap = .error (.keyError c)) ∧
    (∀ e c, process_discipline_data exRows exMap = .error e → e ≠ .keyError c) :=
  ⟨(missing_column_raises badMap [soloRow]).1 soloRow [] rfl (by decide),
   (missing_column_raises exMap exRows).2 (by decide)⟩

/-! ## C7: non-coercible present values -/

/-- A pass-1 `ValueError` always originates from a string cell of the row. -/
theorem processRow1_val_src (m : Mapping) (st : Pass1State) (r : Row) (s : String)
    (h : processRow1 m st r = .error (.valueError s)) :
    ∃ c v, lookupCol r.cells c = some v ∧ v.isText = true := by
  rcases hlo : lookupCol r.cells m.original with _ | co
  · simp [processRow1, Row.getE, hlo] at h
  rcases hla : lookupCol r.cells m.ai with _ | ca
  · simp [processRow1, Row.getE, hlo, hla] at h
  rcases hlc : lookupCol r.cells m.actual with _ | cc
  · simp [processRow1, Row.getE, hlo, hla, hlc] at h
  cases co <;> cases ca <;> cases cc <;>
    simp_all [processRow1, Row.getE, Cell.notna, Cell.toFloat, segField] <;>
    first
    | exact ⟨m.original, _, hlo, rfl⟩
    | exact ⟨m.ai, _, hla, rfl⟩
    | exact ⟨m.actual, _, hlc, rfl⟩

/-- A pass-2 `ValueError` always originates from a string cell of the row. -/
theorem processRow2_val_src (m : Mapping) (S : Finset String) (tot : ℚ × ℚ × ℚ)
    (r : Row) (s : String)
    (h : processRow2 m S tot r = .error (.valueError s)) :
    ∃ c v, lookupCol r.cells c = some v ∧ v.isText = true := by
  by_cases hin : r.key ∈ S
  · rcases hlo : lookupCol r.cells m.original with _ | co
    · simp [processRow2, Row.getE, hlo, hin] at h
    rcases hla : lookupCol r.cells m.ai with _ | ca
    · cases co <;> simp_all [processRow2, Row.getE, Cell.toFloat, hin] <;>
        exact ⟨m.original, _, hlo, rfl⟩
    rcases hlc : lookupCol r.cells m.actual with _ | cc
    · cases co <;> cases ca <;> simp_all [processRow2, Row.getE, Cell.toFloat, hin] <;>
        first
        | exact ⟨m.original, _, hlo, rfl⟩
        | exact ⟨m.ai, _, hla, rfl⟩
    cases co <;> cases ca <;> cases cc <;>
      simp_all [processRow2, Row.getE, Cell.toFloat, hin] <;>
      first
      | exact ⟨m.original, _, hlo, rfl⟩
      | exact ⟨m.ai, _, hla, rfl⟩
      | exact ⟨m.actual, _, hlc, rfl⟩
  · rw [processRow2_notin m S tot r hin] at h
    cases h

/-- Pass-level version: a pass-1 `ValueError` comes from a string cell of
some row. -/
theorem pass1_val_src (m : Mapping) (rows : List Row) :
    ∀ (st : Pass1State) (s : String), pass1 m rows st = .error (.valueError s) →
    ∃ r ∈ rows, ∃ c v, lookupCol r.cells c = some v ∧ v.isText = true := by
  induction rows with
  | nil => intro st s h; simp [pass1] at h
  | cons r rs ih =>
    intro st s h
    cases hpr : processRow1 m st r with
    | error e =>
      simp only [pass1, hpr] at h
      injection h with h2
      subst h2
      obtain ⟨c, v, hc, hv⟩ := processRow1_val_src m st r s hpr
      exact ⟨r, List.mem_cons_self r rs, c, v, hc, hv⟩
    | ok st1 =>
      simp only [pass1, hpr] at h
      obtain ⟨r', hr', rest⟩ := ih st1 s h
      exact ⟨r', List.mem_cons_of_mem r hr', rest⟩

/-- Pass-level version: a pass-2 `ValueError` comes from a string cell of
some row. -/
theorem pass2_val_src (m : Mapping) (S : Finset String) (rows : List Row) :
    ∀ (tot : ℚ × ℚ × ℚ) (s : String), pass2 m S rows tot = .error (.valueError s) →
    ∃ r ∈ rows, ∃ c v, lookupCol r.cells c = some v ∧ v.isText = true := by
  induction rows with
  | nil => intro tot s h; simp [pass2] at h
  | cons r rs ih =>
    intro tot s h
    cases hpr : processRow2 m S tot r with
    | error e =>
      simp only [pass2, hpr] at h
      injection h with h2
      subst h2
      obtain ⟨c, v, hc, hv⟩ := processRow2_val_src m S tot r s hpr
      exact ⟨r, List.mem_cons_self r rs, c, v, hc, hv⟩
    | ok tot1 =>
      simp only [pass2, hpr] at h
      obtain ⟨r', hr', rest⟩ := ih tot1 s h
      exact ⟨r', List.mem_cons_of_mem r hr', rest⟩

/-- A successful column lookup returns a pair of the row's cell list. -/
theorem lookupCol_mem (cells : List (String × Cell)) (c : String) (v : Cell)
    (h : lookupCol cells c = some v) : (c, v) ∈ cells := by
  induction cells with
  | nil => cases h
  | cons p ps ih =>
    rw [lookupCol] at h
    split_ifs at h with hc
    · injection h with h2
      subst h2
      subst hc
      simp
    · exact List.mem_cons_of_mem p (ih h)

/-- C7 (amended): on a uniquely-keyed table whose mapped columns all
resolve, a present value that cannot be coerced to a finite real makes
`process_discipline_data` fail with Python's `ValueError` (which carries
the offending string — not the ticket key or field); when every cell value
of the table is numeric-or-absent, no such format error is raised. -/
theorem bad_value_raises_value_error (m : Mapping) (rows : List Row) :
    ((rows.map Row.key).Nodup → (∀ r ∈ rows, lookupsOk m r = true) →
      (∃ r ∈ rows, hasBadCell m r = true) →
      ∃ s, process_discipline_data rows m = .error (.valueError s)) ∧
    ((∀ r ∈ rows, ∀ p ∈ r.cells, p.2.isText = false) →
      ∀ s, process_discipline_data rows m ≠ .error (.valueError s)) := by
  constructor
  · exact process_err_val_of_bad m rows
  · intro hclean s h
    unfold process_discipline_data at h
    cases hp1 : pass1 m rows ⟨∅, ∅, ∅, []⟩ with
    | error e =>
      simp only [hp1] at h
      injection h with h2
      subst h2
      obtain ⟨r, hr, c, v, hc, hv⟩ := pass1_val_src m rows ⟨∅, ∅, ∅, []⟩ s hp1
      have := hclean r hr (c, v) (lookupCol_mem r.cells c v hc)
      rw [hv] at this
      cases this
    | ok st =>
      cases hp2 : pass2 m st.complete rows (0, 0, 0) with
      | error e =>
        simp only [hp1, hp2] at h
        injection h with h2
        subst h2
        obtain ⟨r, hr, c, v, hc, hv⟩ := pass2_val_src m st.complete rows (0, 0, 0) s hp2
        have := hclean r hr (c, v) (lookupCol_mem r.cells c v hc)
        rw [hv] at this
        cases this
      | ok tot =>
        obtain ⟨origTot, aiTot, actTot⟩ := tot
        simp only [hp1, hp2] at h
        split_ifs at h

/-- A complete row whose original estimate cell is the non-numeric string
"abc". -/
def badRowA : Row := ⟨"T1", none, [("O", .text "abc"), ("A", .num 1), ("C", .num 2)]⟩

/-- The same bad value under a different ticket key and different column
names. -/
def badRowB : Row := ⟨"T2", none, [("O2", .text "abc"), ("A2", .num 5), ("C2", .num 7)]⟩

def exMap2 : Mapping := ⟨"O2", "A2", "C2"⟩

/-- C7 counterexample: the raised error is identical for two tables that
differ in ticket key and in every mapped column name — Python's
`ValueError("could not convert string to float: ...")` carries only the
offending value, so it cannot name the ticket key or the field, contrary
to the claim. -/
theorem value_error_names_only_value :
    process_discipline_data [badRowA] exMap = .error (.valueError "abc") ∧
    process_discipline_data [badRowB] exMap2 = .error (.valueError "abc") ∧
    badRowA.key ≠ badRowB.key ∧ exMap ≠ exMap2 := by
  refine ⟨?_, ?_, by decide, by decide⟩ <;>
    simp [process_discipline_data, pass1, processRow1, pass2, processRow2,
      Row.getE, lookupCol, Cell.notna, Cell.toFloat, segField,
      badRowA, badRowB, exMap, exMap2]

theorem bad_value_raises_value_error_witness :
    (∃ s, process_discipline_data [badRowA] exMap = .error (.valueError s)) ∧
    (∀ s, process_discipline_data exRows exMap ≠ .error (.valueError s)) :=
  ⟨(bad_value_raises_value_error exMap [badRowA]).1 (by decide) (by decide)
      ⟨badRowA, by decide, by decide⟩,
   (bad_value_raises_value_error exMap exRows).2 (by decide)⟩

theorem permuted_rows_same_scalars_witness :
    ∃ res', process_discipline_data [pRowB, pRowA] exMap = .ok res' ∧
      res'.completeDataPoints = (resultPure exMap [pRowA, pRowB]).completeDataPoints ∧
      res'.partlyDataPoints = (resultPure exMap [pRowA, pRowB]).partlyDataPoints ∧
      res'.missingDataPoints = (resultPure exMap [pRowA, pRowB]).missingDataPoints ∧
      res'.originalEstimateTotal = (resultPure exMap [pRowA, pRowB]).originalEstimateTotal ∧
      res'.aiEstimateTotal = (resultPure exMap [pRowA, pRowB]).aiEstimateTotal ∧
      res'.actualTimeTotal = (resultPure exMap [pRowA, pRowB]).actualTimeTotal ∧
      res'.originalVsActualPct = (resultPure exMap [pRowA, pRowB]).originalVsActualPct ∧
      res'.aiVsActualPct = (resultPure exMap [pRowA, pRowB]).aiVsActualPct ∧
      res'.estimationImprovementPct =
        (resultPure exMap [pRowA, pRowB]).estimationImprovementPct ∧
      res'.missingDataDetails.Perm (resultPure exMap [pRowA, pRowB]).missingDataDetails :=
  permuted_rows_same_scalars exMap [pRowA, pRowB] [pRowB, pRowA]
    (resultPure exMap [pRowA, pRowB]) (by decide) (by decide)
    (process_eq_resultPure exMap [pRowA, pRowB] (by decide) (by decide))
